import Mathlib

/-! Shallow embedding of the `bra_scraper` repository's core: the grid
partition optimizer and tile enumerator (`request_configurator.py`) and the
request queue, response validator and persister (`scraper.py`), together with
proofs of the specified properties.

Conventions used throughout:
* Python dicts iterate in insertion order; the ordered dict of variables is
  modelled as a plain list, the i-th entry standing for the i-th variable.
  `variables : List (List Nat)` is the ordered list of domains
  (`dict.values()`), value identifiers being represented by naturals.
* `size_to_batches` dicts (`Nat` keys) are modelled as insertion-ordered
  association lists with in-place overwrite, exactly CPython dict behaviour.
* `math.ceil(a / b)` on positive ints is the exact integer ceiling
  `(a + b - 1) / b`; `b = 0` raises `ZeroDivisionError`, modelled by an
  explicit error value. -/

namespace BraScraper

/-- Exact integer ceiling division: the value of `math.ceil(a / b)` for `b > 0`. -/
def ceilDiv (a b : Nat) : Nat := (a + b - 1) / b

/-- One Python dict assignment `d[k] = v`: overwrite in place if the key is
present (keeping its position), else append at the end. -/
def dictUpsert (k v : Nat) : List (Nat × Nat) → List (Nat × Nat)
  | [] => [(k, v)]
  | (k', v') :: rest =>
      if k' = k then (k, v) :: rest else (k', v') :: dictUpsert k v rest

/-- Python dict lookup `d[k]`, `none` standing for a `KeyError`. -/
def dictGet? (d : List (Nat × Nat)) (k : Nat) : Option Nat :=
  (d.find? (fun p => p.1 == k)).map Prod.snd

/-- Inner loop of `get_partition_data` for one variable with `n = len(values)`:
`for size in range(1, min(n + 1, limit + 1)): size_to_batches[ceil(n / size)] = size`.
Later (larger) sizes overwrite, so each distinct batch count keeps the largest
size achieving it. -/
def sizeToBatches (n limit : Nat) : List (Nat × Nat) :=
  (List.range' 1 (min n limit)).foldl (fun d size => dictUpsert (ceilDiv n size) size d) []

/-- `get_partition_data(variables, limit)`: per variable the
`number-of-batches ↦ largest-size` dict, plus the list of key lists
(`number_of_batches_lists`). -/
def get_partition_data (vars : List (List Nat)) (limit : Nat) :
    List (List (Nat × Nat)) × List (List Nat) :=
  let batch_size_sets := vars.map (fun values => sizeToBatches values.length limit)
  (batch_size_sets, batch_size_sets.map (fun d => d.map Prod.fst))

/-- `itertools.product(*lists)` in its iteration order (first factor slowest). -/
def listProd : List (List α) → List (List α)
  | [] => [[]]
  | xs :: rest => xs.flatMap (fun x => (listProd rest).map (fun t => x :: t))

/-- Look up, per variable, the batch size stored for a chosen number of
batches: `[batch_size_sets[var][nbr] for var, nbr in zip(variables.keys(), combo)]`.
`none` stands for a `KeyError`; this is unreachable in the search because every
combination is drawn from the key lists of these same dicts. -/
def comboSizes? : List (List (Nat × Nat)) → List Nat → Option (List Nat)
  | [], [] => some []
  | d :: ds, b :: bs =>
      match dictGet? d b, comboSizes? ds bs with
      | some s, some rest => some (s :: rest)
      | _, _ => none
  | _, _ => none

/-- Python's `request_count < min_request_count` test, `min_request_count`
initially `float("inf")` (modelled by `none`). -/
def rcLtMin (rc : Nat) : Option (List Nat × Nat) → Bool
  | none => true
  | some pm => decide (rc < pm.2)

/-- The `for combo in iter_product(*number_of_batches_lists)` loop of
`find_optimal_combination`, carrying `best_combination` together with
`min_request_count` (`none` while no feasible combination has been found).
The `break` on reaching the lower bound is the `some (combo, rc)` early
return. -/
def searchCombos (bss : List (List (Nat × Nat))) (lb limit : Nat) :
    List (List Nat) → Option (List Nat × Nat) → Option (List Nat × Nat)
  | [], best => best
  | combo :: rest, best =>
      let rc := combo.prod
      if decide (lb ≤ rc) && rcLtMin rc best then
        match comboSizes? bss combo with
        | some sizes =>
            if sizes.prod ≤ limit then
              if rc = lb then some (combo, rc)
              else searchCombos bss lb limit rest (some (combo, rc))
            else searchCombos bss lb limit rest best
        | none => searchCombos bss lb limit rest best
      else searchCombos bss lb limit rest best

/-- A combination passes the loop's two feasibility tests: request count at
least the lower bound, and the product of the stored (largest) sizes within
the row limit. -/
def feasCombo (bss : List (List (Nat × Nat))) (lb limit : Nat) (combo : List Nat) : Bool :=
  decide (lb ≤ combo.prod) &&
    (match comboSizes? bss combo with
     | some sizes => decide (sizes.prod ≤ limit)
     | none => false)

/-- Invariant carried by the loop state `(best_combination, min_request_count)`:
whenever it is set, the count is the combination's product, the combination is
feasible, and the count still exceeds the lower bound (reaching it breaks the
loop at once). -/
def SearchInv (bss : List (List (Nat × Nat))) (lb limit : Nat)
    (best : Option (List Nat × Nat)) : Prop :=
  ∀ c m, best = some (c, m) → m = c.prod ∧ feasCombo bss lb limit c = true ∧ lb < m

/-- What a run of the search loop over `l` starting from `best` guarantees
about its result `res`: `none` only when nothing was ever feasible; a winner
is feasible with its own product as count, that count is minimal over the
feasible part of `l` and no worse than the incoming best, and the winner is
the incoming best or sits in `l` strictly beating everything before it. -/
def SearchPost (bss : List (List (Nat × Nat))) (lb limit : Nat)
    (l : List (List Nat)) (best res : Option (List Nat × Nat)) : Prop :=
  (res = none → best = none ∧ ∀ c ∈ l, feasCombo bss lb limit c = false) ∧
  (∀ c m, res = some (c, m) →
    m = c.prod ∧ feasCombo bss lb limit c = true ∧ lb ≤ m ∧
    (∀ c' ∈ l, feasCombo bss lb limit c' = true → m ≤ c'.prod) ∧
    (∀ c₀ m₀, best = some (c₀, m₀) → m ≤ m₀) ∧
    (best = some (c, m) ∨
      ∃ l₁ l₂, l = l₁ ++ c :: l₂ ∧
        (∀ c' ∈ l₁, feasCombo bss lb limit c' = true → m < c'.prod) ∧
        (∀ c₀ m₀, best = some (c₀, m₀) → m < m₀)))

/-- Possible outcomes of `find_optimal_combination`.  The code itself only ever
produces `plan` or one of the two raw Python exceptions; `configError` is the
reported-configuration-error outcome that the specification demands on
infeasible input and that the code never produces. -/
inductive OptResult
  | plan (sizes : List Nat)
  | configError
  | zeroDivisionError
  | noneTypeError
deriving DecidableEq

/-- `find_optimal_combination(variables, limit)`.  `zeroDivisionError` models
`math.ceil(total_rows / 0)`; `noneTypeError` models the crash of
`zip(variables.keys(), None)` in the final dict comprehension when
`best_combination` stayed `None`. -/
def find_optimal_combination (vars : List (List Nat)) (limit : Nat) : OptResult :=
  if limit = 0 then OptResult.zeroDivisionError
  else
    let total_rows := (vars.map List.length).prod
    let lower_request_bound := ceilDiv total_rows limit
    if lower_request_bound = 1 then OptResult.plan (vars.map List.length)
    else
      let pd := get_partition_data vars limit
      match searchCombos pd.1 lower_request_bound limit (listProd pd.2) none with
      | none => OptResult.noneTypeError
      | some cm =>
          match comboSizes? pd.1 cm.1 with
          | some sizes => OptResult.plan sizes
          | none => OptResult.noneTypeError

/-- The combinations the optimizer's search iterates over: the Cartesian
product of the per-variable candidate batch-count lists. -/
def candidateCombos (vars : List (List Nat)) (limit : Nat) : List (List Nat) :=
  listProd (get_partition_data vars limit).2

/-- Feasibility of a candidate combination exactly as the loop tests it. -/
def codeFeasible (vars : List (List Nat)) (limit : Nat) (combo : List Nat) : Bool :=
  feasCombo (get_partition_data vars limit).1
    (ceilDiv (vars.map List.length).prod limit) limit combo

/-- `split_into_batches(values, batch_size)`: the list comprehension
`[values[i * batch_size : (i + 1) * batch_size] for i in range(ceil(len/size))]`. -/
def split_into_batches (values : List Nat) (batch_size : Nat) : List (List Nat) :=
  (List.range (ceilDiv values.length batch_size)).map
    (fun i => (values.drop (i * batch_size)).take batch_size)

/-- `generate_all_combinations(variables, optimal_batch_sizes)`: split every
variable's domain and take the Cartesian product of the per-variable batch
lists (the dict pairing of sizes with variables is the positional `zip`). -/
def generate_all_combinations (vars : List (List Nat))
    (optimal_batch_sizes : List Nat) : List (List (List Nat)) :=
  listProd ((vars.zip optimal_batch_sizes).map (fun p => split_into_batches p.1 p.2))

/-- Implied tile count of a batch-size assignment: `Π ceil(|domain_i| / size_i)`. -/
def tileCount (vars : List (List Nat)) (sizes : List Nat) : Nat :=
  ((vars.zip sizes).map (fun p => ceilDiv p.1.length p.2)).prod

/-- A per-dimension batch-size assignment respecting the row budget:
one size per dimension, `1 ≤ size ≤ |domain|`, and `Π sizes ≤ limit`. -/
def validAssignB (vars : List (List Nat)) (limit : Nat) (sizes : List Nat) : Bool :=
  decide (sizes.length = vars.length) &&
    (vars.zip sizes).all (fun p => decide (1 ≤ p.2) && decide (p.2 ≤ p.1.length)) &&
    decide (sizes.prod ≤ limit)

/-! Embedding of `scraper.py`: the response validator and the sqlite-backed
request queue.  A response body is modelled by its character list; Python's
`text.split("\n")` and `line.count(";")` become `splitLines` and
`List.count ';'`. -/

/-- Python `text.split("\n")`: pieces between newline characters, keeping
empty pieces (so `splitLines [] = [[]]`, exactly as `"".split("\n") == [""]`). -/
def splitLines : List Char → List (List Char)
  | [] => [[]]
  | c :: rest =>
      let r := splitLines rest
      if c = '\n' then [] :: r
      else
        match r with
        | [] => [[c]]
        | l :: ls => (c :: l) :: ls

/-- `is_valid_csv(response)` of `scraper.py`, on the response body text.  The
guard `not response.text` is the emptiness test; a non-`Response` or falsy
`response` object never reaches the body and is classified invalid the same
way.  Note the code demands strictly more than one separator in the first
line (`separator_count_first_line > 1`). -/
def is_valid_csv (text : List Char) : Bool :=
  if text = [] then false
  else
    let lines := splitLines text
    if lines.length < 2 then false
    else
      let c1 := (lines.getD 0 []).count ';'
      let c2 := (lines.getD 1 []).count ';'
      decide (1 < c1) && decide (c1 = c2)

/-- Modelled from the spec: the validity rule as §4.5 and the claim state it —
at least two lines whose first two lines carry the same non-zero count of the
field separator. -/
def spec_valid_csv (text : List Char) : Bool :=
  let lines := splitLines text
  decide (2 ≤ lines.length) &&
    decide ((lines.getD 0 []).count ';' = (lines.getD 1 []).count ';') &&
    decide ((lines.getD 0 []).count ';' ≠ 0)

/-- `status TEXT CHECK(status IN ('Pending', 'Done', 'Error'))`. -/
inductive Status
  | pending
  | done
  | error
deriving DecidableEq

/-- One row of the `Requests` table. -/
structure RequestRow where
  request_id : Nat
  topic_id : Nat
  payload : String
  status : Status
deriving DecidableEq

/-- One row of the `Responses` table.  `response_id` is an AUTOINCREMENT
primary key; `request_id` carries no UNIQUE constraint. -/
structure ResponseRow where
  response_id : Nat
  request_id : Nat
  response_text : List Char
deriving DecidableEq

/-- One row of the `FailedRequests` table, whose `request_id` column is the
PRIMARY KEY. -/
structure FailedRow where
  request_id : Nat
  info : String
deriving DecidableEq

/-- The sqlite database state: the three tables plus the AUTOINCREMENT
counters (sqlite hands out ids starting from 1). -/
structure DB where
  requests : List RequestRow
  responses : List ResponseRow
  failed : List FailedRow
  nextRequestId : Nat
  nextResponseId : Nat
deriving DecidableEq

/-- `init_db()` on a fresh file (and the state `_reset_db()` re-creates):
empty tables, AUTOINCREMENT counters at 1. -/
def init_db : DB :=
  { requests := [], responses := [], failed := [], nextRequestId := 1, nextResponseId := 1 }

/-- `bulk_insert_requests(payloads, topic_id)`: one `INSERT INTO Requests
(topic_id, payload)` per payload; `status` takes its schema default
`'Pending'` and `request_id` autoincrements. -/
def bulk_insert_requests (db : DB) (payloads : List String) (topic_id : Nat) : DB :=
  payloads.foldl
    (fun d payload =>
      { d with
        requests := d.requests ++
          [{ request_id := d.nextRequestId, topic_id := topic_id,
             payload := payload, status := Status.pending }],
        nextRequestId := d.nextRequestId + 1 })
    db

/-- Python truthiness of the optional `topic_id` argument (`int` or `None`):
`None` and `0` are falsy. -/
def pyTruthy : Option Nat → Bool
  | none => false
  | some n => decide (n ≠ 0)

/-- `get_pending_requests(topic_id)`: `SELECT payload FROM Requests WHERE
status = 'Pending'`, restricted to one topic only when `if topic_id:` takes
the truthy branch.  Rows come back in insertion order. -/
def get_pending_requests (db : DB) (topic_id : Option Nat) : List String :=
  if pyTruthy topic_id then
    (db.requests.filter
      (fun r => decide (some r.topic_id = topic_id ∧ r.status = Status.pending))).map
      RequestRow.payload
  else
    (db.requests.filter (fun r => decide (r.status = Status.pending))).map
      RequestRow.payload

/-- `update_request_status(request_id, status)`.  Defined in the source but
never called by the scraping workflow (the persister issues its own inline
`UPDATE`), so it is not a step of the workflow's reachability relation. -/
def update_request_status (db : DB) (request_id : Nat) (status : Status) : DB :=
  { db with
    requests := db.requests.map
      (fun r => if r.request_id = request_id then { r with status := status } else r) }

/-- The body of `save_response` (the worker `save_response_async` spawns),
acting on the database state.
* Invalid response: `INSERT INTO FailedRequests (request_id, info)` with the
  fixed tag; `request_id` is that table's PRIMARY KEY, so when a row for the
  id already exists the insert raises `IntegrityError`, the bare `except`
  logs it, `commit` is skipped and closing the connection rolls back — the
  state is unchanged.  The request's status is never touched on this path.
* Valid response: `REPLACE INTO Responses(request_id, response_text)` — the
  fresh autoincremented `response_id` never conflicts and `request_id` has no
  UNIQUE constraint, so REPLACE degenerates to a plain INSERT — followed by
  `UPDATE Requests SET status = 'Done'`. -/
def save_response (db : DB) (request_id : Nat) (text : List Char) : DB :=
  if is_valid_csv text = false then
    if db.failed.any (fun f => f.request_id == request_id) then db
    else { db with failed := db.failed ++ [{ request_id := request_id, info := "Invalid CSV response" }] }
  else
    { db with
      responses := db.responses ++
        [{ response_id := db.nextResponseId, request_id := request_id, response_text := text }],
      nextResponseId := db.nextResponseId + 1,
      requests := db.requests.map
        (fun r => if r.request_id = request_id then { r with status := Status.done } else r) }

/-- Outcome of calling `execute_and_save_requests`. -/
inductive ExecOutcome
  | attributeError
deriving DecidableEq

/-- `execute_and_save_requests(requests, topic_id)`: its parameter `requests`
shadows the imported `requests` module, so its first statement
`with requests.Session() as session:` evaluates `Session` on the list argument
and raises `AttributeError` before any request is executed — on every call,
whatever the list holds.  (Even absent the shadowing, the rows fetched by
`get_pending_requests` are payload-only tuples, so `request["payload"]` and
`request["request_id"]` would fail in turn.) -/
def execute_and_save_requests (reqs : List String) (topic_id : Nat) : ExecOutcome :=
  ExecOutcome.attributeError

/-- Status of the first `Requests` row carrying a given id. -/
def statusOf (db : DB) (request_id : Nat) : Option Status :=
  (db.requests.find? (fun r => r.request_id == request_id)).map RequestRow.status

/-- Database states reachable through the scraping workflow's mutating
operations: the freshly initialised store, bulk insertion of generated
requests, and the persister's commit of a response.  (`get_pending_requests`
reads without writing.) -/
inductive Reachable : DB → Prop
  | init : Reachable init_db
  | insert (db : DB) (payloads : List String) (topic_id : Nat) :
      Reachable db → Reachable (bulk_insert_requests db payloads topic_id)
  | save (db : DB) (request_id : Nat) (text : List Char) :
      Reachable db → Reachable (save_response db request_id text)

/-- Per-request status evolution between two database states: any request
present in both either keeps its status or moves from Pending to Done. -/
def StatusStepOK (db db' : DB) : Prop :=
  ∀ rid s s', statusOf db rid = some s → statusOf db' rid = some s' →
    s' = s ∨ (s = Status.pending ∧ s' = Status.done)

/-- The resume scenario's queue: ten requests for topic 1, the first six
already marked Done, four still Pending. -/
def resumeDB : DB :=
  { requests :=
      [⟨1, 1, "p1", Status.done⟩, ⟨2, 1, "p2", Status.done⟩,
       ⟨3, 1, "p3", Status.done⟩, ⟨4, 1, "p4", Status.done⟩,
       ⟨5, 1, "p5", Status.done⟩, ⟨6, 1, "p6", Status.done⟩,
       ⟨7, 1, "p7", Status.pending⟩, ⟨8, 1, "p8", Status.pending⟩,
       ⟨9, 1, "p9", Status.pending⟩, ⟨10, 1, "p10", Status.pending⟩],
    responses := [], failed := [], nextRequestId := 11, nextResponseId := 1 }

/-- A queue holding one Pending request and no other rows. -/
def onePendingDB : DB :=
  { requests := [⟨1, 1, "p1", Status.pending⟩],
    responses := [], failed := [], nextRequestId := 2, nextResponseId := 1 }

/-- A queue holding one Pending request whose id already has a recorded
failure. -/
def failedOnceDB : DB :=
  { requests := [⟨1, 1, "p1", Status.pending⟩],
    responses := [],
    failed := [⟨1, "Invalid CSV response"⟩],
    nextRequestId := 2, nextResponseId := 1 }

end BraScraper

open BraScraper

example : is_valid_csv "a;b\nc;d".toList = false := by decide

example : spec_valid_csv "a;b\nc;d".toList = true := by decide

example : is_valid_csv "a;b;c\nd;e;f".toList = true := by decide

example : is_valid_csv "a;b;c".toList = false := by decide

example : get_pending_requests resumeDB (some 1) = ["p7", "p8", "p9", "p10"] := by decide

example : get_pending_requests resumeDB (some 0) = ["p7", "p8", "p9", "p10"] := by decide

example :
    ((save_response (save_response onePendingDB 1 "a;b;c\nd;e;f".toList) 1
        "a;b;c\nd;e;f".toList).responses.filter (fun r => r.request_id == 1)).length = 2 := by
  decide

example : save_response failedOnceDB 1 "bad".toList = failedOnceDB := by decide

example :
    (save_response onePendingDB 1 "bad".toList).failed =
      [⟨1, "Invalid CSV response"⟩] := by decide

/-! Arithmetic facts about `ceilDiv`. -/

lemma le_ceilDiv_iff {a b c : Nat} (hb : 0 < b) : c ≤ ceilDiv a b ↔ c * b ≤ a + b - 1 :=
  Nat.le_div_iff_mul_le hb

lemma ceilDiv_lt_iff {a b c : Nat} (hb : 0 < b) : ceilDiv a b < c ↔ a + b - 1 < c * b :=
  Nat.div_lt_iff_lt_mul hb

lemma ceilDiv_pos {a b : Nat} (ha : 0 < a) (hb : 0 < b) : 0 < ceilDiv a b := by
  have h := (le_ceilDiv_iff (a := a) (c := 1) hb).mpr (by omega)
  omega

lemma ceilDiv_eq_one {a b : Nat} (ha : 0 < a) (hab : a ≤ b) : ceilDiv a b = 1 := by
  have hb : 0 < b := by omega
  have h1 := (le_ceilDiv_iff (a := a) (c := 1) hb).mpr (by omega)
  have h2 := (ceilDiv_lt_iff (a := a) (c := 2) hb).mpr (by omega)
  omega

lemma le_of_ceilDiv_eq_one {a b : Nat} (hb : 0 < b) (h : ceilDiv a b = 1) : a ≤ b := by
  by_contra hab
  have h2 := (le_ceilDiv_iff (a := a) (c := 2) hb).mpr (by omega)
  omega

lemma ceilDiv_self {n : Nat} (hn : 0 < n) : ceilDiv n n = 1 :=
  ceilDiv_eq_one hn le_rfl

lemma ceilDiv_mul_lt {len s i : Nat} (hs : 0 < s) (hi : i < ceilDiv len s) :
    i * s < len := by
  have h' := (le_ceilDiv_iff (a := len) (c := i + 1) hs).mp (by omega)
  have hmul : (i + 1) * s = i * s + s := by ring
  omega

lemma ceilDiv_mul_add_le {len s i : Nat} (hs : 0 < s) (hi : i + 1 < ceilDiv len s) :
    i * s + s ≤ len := by
  have h' := (le_ceilDiv_iff (a := len) (c := i + 2) hs).mp (by omega)
  have hmul : (i + 2) * s = i * s + s + s := by ring
  omega

/-! Facts about the `size_to_batches` association lists. -/

lemma mem_dictUpsert {k v : Nat} {q : Nat × Nat} :
    ∀ {d : List (Nat × Nat)}, q ∈ dictUpsert k v d → q = (k, v) ∨ q ∈ d := by
  intro d
  induction d with
  | nil => intro h; simp [dictUpsert] at h; exact Or.inl h
  | cons hd tl ih =>
      intro h
      obtain ⟨k', v'⟩ := hd
      by_cases hk : k' = k
      · simp [dictUpsert, hk] at h
        rcases h with h | h
        · exact Or.inl (by simp [h])
        · exact Or.inr (List.mem_cons_of_mem _ h)
      · simp [dictUpsert, hk] at h
        rcases h with h | h
        · exact Or.inr (by simp [h])
        · rcases ih h with h' | h'
          · exact Or.inl h'
          · exact Or.inr (List.mem_cons_of_mem _ h')

lemma foldl_dictUpsert_mem (n : Nat) (P : Nat × Nat → Prop) :
    ∀ (l : List Nat) (d0 : List (Nat × Nat)),
      (∀ q ∈ d0, P q) → (∀ s ∈ l, P (ceilDiv n s, s)) →
      ∀ q ∈ l.foldl (fun d size => dictUpsert (ceilDiv n size) size d) d0, P q := by
  intro l
  induction l with
  | nil => intro d0 h0 _ q hq; exact h0 q hq
  | cons s rest ih =>
      intro d0 h0 hl q hq
      refine ih (dictUpsert (ceilDiv n s) s d0) ?_ ?_ q hq
      · intro q' hq'
        rcases mem_dictUpsert hq' with h | h
        · subst h; exact hl s (by simp)
        · exact h0 q' h
      · intro s' hs'; exact hl s' (List.mem_cons_of_mem _ hs')

/-- Every entry of `sizeToBatches n limit` pairs a batch count with a size in
range that realises it. -/
lemma sizeToBatches_mem {n limit : Nat} :
    ∀ q ∈ sizeToBatches n limit,
      1 ≤ q.2 ∧ q.2 ≤ n ∧ q.2 ≤ limit ∧ ceilDiv n q.2 = q.1 := by
  intro q hq
  refine foldl_dictUpsert_mem n
    (fun q => 1 ≤ q.2 ∧ q.2 ≤ n ∧ q.2 ≤ limit ∧ ceilDiv n q.2 = q.1)
    (List.range' 1 (min n limit)) [] (by simp) ?_ q hq
  intro s hs
  have hmem : 1 ≤ s ∧ s < 1 + min n limit := List.mem_range'_1.mp hs
  exact ⟨hmem.1, by omega, by omega, rfl⟩

lemma dictGet?_some_mem {d : List (Nat × Nat)} {k v : Nat}
    (h : dictGet? d k = some v) : (k, v) ∈ d := by
  unfold dictGet? at h
  rcases hf : d.find? (fun p => p.1 == k) with _ | p
  · rw [hf] at h; simp at h
  · rw [hf] at h
    simp at h
    have hp := List.find?_some hf
    have hm := List.mem_of_find?_eq_some hf
    simp at hp
    have : p = (k, v) := by
      obtain ⟨p1, p2⟩ := p
      simp at hp h
      simp [hp, h]
    rw [this] at hm
    exact hm

lemma dictGet?_isSome_of_key {d : List (Nat × Nat)} {k : Nat}
    (h : k ∈ d.map Prod.fst) : ∃ v, dictGet? d k = some v := by
  obtain ⟨p, hp, hk⟩ := List.mem_map.mp h
  rcases hf : d.find? (fun p => p.1 == k) with _ | q
  · exfalso
    have := List.find?_eq_none.mp hf p hp
    simp [hk] at this
  · exact ⟨q.2, by unfold dictGet?; rw [hf]; rfl⟩

/-! Facts about `comboSizes?`. -/

lemma comboSizes?_length {limit : Nat} :
    ∀ (vs : List (List Nat)) (bs ss : List Nat),
      comboSizes? (vs.map (fun v => sizeToBatches v.length limit)) bs = some ss →
      ss.length = vs.length := by
  intro vs
  induction vs with
  | nil => intro bs ss h; cases bs <;> simp [comboSizes?] at h; simp [← h]
  | cons v rest ih =>
      intro bs ss h
      cases bs with
      | nil => simp [comboSizes?] at h
      | cons b bs' =>
          rcases hg : dictGet? (sizeToBatches v.length limit) b with _ | s
          · simp [comboSizes?, hg] at h
          · rcases hr : comboSizes? (rest.map (fun v => sizeToBatches v.length limit)) bs'
              with _ | ss'
            · simp [comboSizes?, hg, hr] at h
            · simp [comboSizes?, hg, hr] at h
              subst h
              simp [ih bs' ss' hr]

lemma comboSizes?_bounds {limit : Nat} :
    ∀ (vs : List (List Nat)) (bs ss : List Nat),
      comboSizes? (vs.map (fun v => sizeToBatches v.length limit)) bs = some ss →
      ∀ p ∈ vs.zip ss, 1 ≤ p.2 ∧ p.2 ≤ p.1.length ∧ p.2 ≤ limit := by
  intro vs
  induction vs with
  | nil => intro bs ss h p hp; simp at hp
  | cons v rest ih =>
      intro bs ss h p hp
      cases bs with
      | nil => simp [comboSizes?] at h
      | cons b bs' =>
          rcases hg : dictGet? (sizeToBatches v.length limit) b with _ | s
          · simp [comboSizes?, hg] at h
          · rcases hr : comboSizes? (rest.map (fun v => sizeToBatches v.length limit)) bs'
              with _ | ss'
            · simp [comboSizes?, hg, hr] at h
            · simp [comboSizes?, hg, hr] at h
              subst h
              rw [List.zip_cons_cons] at hp
              rcases List.mem_cons.mp hp with hp' | hp'
              · have hm := sizeToBatches_mem _ (dictGet?_some_mem hg)
                subst hp'
                exact ⟨hm.1, hm.2.1, hm.2.2.1⟩
              · exact ih bs' ss' hr p hp'

/-- The tile count implied by the looked-up sizes equals the combination's
batch-count product. -/
lemma comboSizes?_tileCount {limit : Nat} :
    ∀ (vs : List (List Nat)) (bs ss : List Nat),
      comboSizes? (vs.map (fun v => sizeToBatches v.length limit)) bs = some ss →
      tileCount vs ss = bs.prod := by
  intro vs
  induction vs with
  | nil =>
      intro bs ss h
      cases bs <;> simp [comboSizes?] at h
      simp [← h, tileCount]
  | cons v rest ih =>
      intro bs ss h
      cases bs with
      | nil => simp [comboSizes?] at h
      | cons b bs' =>
          rcases hg : dictGet? (sizeToBatches v.length limit) b with _ | s
          · simp [comboSizes?, hg] at h
          · rcases hr : comboSizes? (rest.map (fun v => sizeToBatches v.length limit)) bs'
              with _ | ss'
            · simp [comboSizes?, hg, hr] at h
            · simp [comboSizes?, hg, hr] at h
              subst h
              have hm := sizeToBatches_mem _ (dictGet?_some_mem hg)
              have hrec := ih bs' ss' hr
              simp [tileCount, List.zip_cons_cons] at hrec ⊢
              rw [hrec, hm.2.2.2]

/-! Soundness of the optimizer's search loop. -/

/-- Transfer of the loop postcondition across a skipped head: a head that is
infeasible, or feasible but no better than the incoming best, changes
nothing. -/
lemma SearchPost_skip {bss : List (List (Nat × Nat))} {lb limit : Nat}
    {combo : List Nat} {rest : List (List Nat)} {best res : Option (List Nat × Nat)}
    (hskip : feasCombo bss lb limit combo = false ∨
      ∃ c₀ m₀, best = some (c₀, m₀) ∧ m₀ ≤ combo.prod)
    (hpost : SearchPost bss lb limit rest best res) :
    SearchPost bss lb limit (combo :: rest) best res := by
  obtain ⟨hnone, hsome⟩ := hpost
  constructor
  · intro h
    obtain ⟨hb, hall⟩ := hnone h
    refine ⟨hb, ?_⟩
    intro c hc
    rcases List.mem_cons.mp hc with rfl | hc'
    · rcases hskip with hsk | ⟨c₀, m₀, hb₀, _⟩
      · exact hsk
      · rw [hb] at hb₀; cases hb₀
    · exact hall c hc'
  · intro c m h
    obtain ⟨h1, h2, h3, h4, h5, h6⟩ := hsome c m h
    refine ⟨h1, h2, h3, ?_, h5, ?_⟩
    · intro c' hc' hf
      rcases List.mem_cons.mp hc' with rfl | hc''
      · rcases hskip with hsk | ⟨c₀, m₀, hb₀, hm₀⟩
        · rw [hsk] at hf; cases hf
        · exact le_trans (h5 c₀ m₀ hb₀) hm₀
      · exact h4 c' hc'' hf
    · rcases h6 with h6 | ⟨l₁, l₂, hl, hl₁, hlb⟩
      · exact Or.inl h6
      · refine Or.inr ⟨combo :: l₁, l₂, by simp [hl], ?_, hlb⟩
        intro c' hc' hf
        rcases List.mem_cons.mp hc' with rfl | hc''
        · rcases hskip with hsk | ⟨c₀, m₀, hb₀, hm₀⟩
          · rw [hsk] at hf; cases hf
          · exact lt_of_lt_of_le (hlb c₀ m₀ hb₀) hm₀
        · exact hl₁ c' hc'' hf

/-- The search loop satisfies its postcondition from any state satisfying the
loop invariant. -/
lemma searchCombos_sound (bss : List (List (Nat × Nat))) (lb limit : Nat) :
    ∀ (l : List (List Nat)) (best : Option (List Nat × Nat)),
      SearchInv bss lb limit best →
      SearchPost bss lb limit l best (searchCombos bss lb limit l best) := by
  intro l
  induction l with
  | nil =>
      intro best hinv
      constructor
      · intro h
        simp only [searchCombos] at h
        exact ⟨h, by intro c hc; cases hc⟩
      · intro c m h
        simp only [searchCombos] at h
        obtain ⟨h1, h2, h3⟩ := hinv c m h
        refine ⟨h1, h2, le_of_lt h3, ?_, ?_, Or.inl h⟩
        · intro c' hc'; cases hc'
        · intro c₀ m₀ h₀
          rw [h] at h₀
          injection h₀ with h₀'
          injection h₀' with _ h₀''
          omega
  | cons combo rest ih =>
      intro best hinv
      by_cases hcond : (decide (lb ≤ combo.prod) && rcLtMin combo.prod best) = true
      · have hle : lb ≤ combo.prod := by
          have := (Bool.and_eq_true _ _).mp hcond
          exact of_decide_eq_true this.1
        have hlt : ∀ c₀ m₀, best = some (c₀, m₀) → combo.prod < m₀ := by
          intro c₀ m₀ h₀
          have := (Bool.and_eq_true _ _).mp hcond
          rw [h₀] at this
          exact of_decide_eq_true this.2
        rcases hcs : comboSizes? bss combo with _ | sizes
        · -- unreachable KeyError branch: the head is skipped as infeasible
          have hstep : searchCombos bss lb limit (combo :: rest) best
              = searchCombos bss lb limit rest best := by
            simp [searchCombos, hcond, hcs]
          rw [hstep]
          refine SearchPost_skip (Or.inl ?_) (ih best hinv)
          simp [feasCombo, hcs]
        · by_cases hsp : sizes.prod ≤ limit
          · have hfeas : feasCombo bss lb limit combo = true := by
              simp [feasCombo, hcs, hle, hsp]
            by_cases hrc : combo.prod = lb
            · -- the break: the head attains the lower bound and wins outright
              have hstep : searchCombos bss lb limit (combo :: rest) best
                  = some (combo, combo.prod) := by
                simp [searchCombos, hcond, hcs, hsp]
                intro h
                exact absurd hrc h
              rw [hstep]
              constructor
              · intro h; cases h
              · intro c m h
                injection h with h'
                injection h' with hc hm
                subst hc
                subst hm
                refine ⟨rfl, hfeas, hle, ?_, ?_, ?_⟩
                · intro c' hc' hf
                  rcases List.mem_cons.mp hc' with rfl | hc''
                  · exact le_rfl
                  · have := (Bool.and_eq_true _ _).mp hf
                    have := of_decide_eq_true this.1
                    omega
                · intro c₀ m₀ h₀; exact le_of_lt (hlt c₀ m₀ h₀)
                · exact Or.inr ⟨[], rest, rfl, (by intro c' hc'; cases hc'), hlt⟩
            · -- the head becomes the new best and the loop continues
              have hstep : searchCombos bss lb limit (combo :: rest) best
                  = searchCombos bss lb limit rest (some (combo, combo.prod)) := by
                simp [searchCombos, hcond, hcs, hsp, hrc]
              rw [hstep]
              have hinv' : SearchInv bss lb limit (some (combo, combo.prod)) := by
                intro c m h
                injection h with h'
                injection h' with hc hm
                subst hc
                subst hm
                exact ⟨rfl, hfeas, by omega⟩
              obtain ⟨hnone', hsome'⟩ := ih (some (combo, combo.prod)) hinv'
              constructor
              · intro h
                obtain ⟨hb, _⟩ := hnone' h
                cases hb
              · intro c m h
                obtain ⟨h1, h2, h3, h4, h5, h6⟩ := hsome' c m h
                have hmrc : m ≤ combo.prod := h5 combo combo.prod rfl
                refine ⟨h1, h2, h3, ?_, ?_, ?_⟩
                · intro c' hc' hf
                  rcases List.mem_cons.mp hc' with rfl | hc''
                  · exact hmrc
                  · exact h4 c' hc'' hf
                · intro c₀ m₀ h₀
                  exact le_of_lt (lt_of_le_of_lt hmrc (hlt c₀ m₀ h₀))
                · rcases h6 with h6 | ⟨l₁, l₂, hl, hl₁, hlb⟩
                  · injection h6 with h6'
                    injection h6' with hc6 hm6
                    subst hc6
                    refine Or.inr ⟨[], rest, rfl, (by intro c' hc'; cases hc'), ?_⟩
                    intro c₀ m₀ h₀
                    rw [← hm6]
                    exact hlt c₀ m₀ h₀
                  · refine Or.inr ⟨combo :: l₁, l₂, by simp [hl], ?_, ?_⟩
                    · intro c' hc' hf
                      rcases List.mem_cons.mp hc' with heq | hc''
                      · rw [heq]
                        exact hlb combo combo.prod rfl
                      · exact hl₁ c' hc'' hf
                    · intro c₀ m₀ h₀
                      exact lt_of_lt_of_le
                        (lt_of_le_of_lt hmrc (hlt c₀ m₀ h₀)) le_rfl
          · -- stored-size product over the limit: skipped as infeasible
            have hstep : searchCombos bss lb limit (combo :: rest) best
                = searchCombos bss lb limit rest best := by
              simp [searchCombos, hcond, hcs, hsp]
            rw [hstep]
            refine SearchPost_skip (Or.inl ?_) (ih best hinv)
            simp [feasCombo, hcs, hsp]
      · -- loop condition false: not better than the current best, or under
        -- the lower bound
        have hstep : searchCombos bss lb limit (combo :: rest) best
            = searchCombos bss lb limit rest best := by
          simp only [searchCombos, Bool.not_eq_true] at hcond ⊢
          rw [hcond]
          simp
        rw [hstep]
        refine SearchPost_skip ?_ (ih best hinv)
        by_cases hle : lb ≤ combo.prod
        · right
          rcases hb : best with _ | ⟨c₀, m₀⟩
          · exfalso
            apply hcond
            simp [rcLtMin, hb, hle]
          · refine ⟨c₀, m₀, rfl, ?_⟩
            by_contra hm₀
            apply hcond
            simp [rcLtMin, hb, hle]
            omega
        · left
          simp [feasCombo]
          intro h
          omega

/-- A combination that passes the loop's tests has a successful size lookup. -/
lemma feasCombo_lookup {bss : List (List (Nat × Nat))} {lb limit : Nat} {combo : List Nat}
    (h : feasCombo bss lb limit combo = true) :
    lb ≤ combo.prod ∧ ∃ sizes, comboSizes? bss combo = some sizes ∧ sizes.prod ≤ limit := by
  have hand := (Bool.and_eq_true _ _).mp h
  refine ⟨of_decide_eq_true hand.1, ?_⟩
  rcases hcs : comboSizes? bss combo with _ | sizes
  · rw [hcs] at hand
    simp at hand
  · rw [hcs] at hand
    exact ⟨sizes, rfl, of_decide_eq_true hand.2⟩

/-! Facts about `listProd`, the embedding of `itertools.product`. -/

lemma mem_listProd {α : Type} : ∀ (ls : List (List α)) (t : List α),
    t ∈ listProd ls ↔ List.Forall₂ (fun a l => a ∈ l) t ls := by
  intro ls
  induction ls with
  | nil =>
      intro t
      simp only [listProd, List.mem_singleton]
      constructor
      · intro h; subst h; exact List.Forall₂.nil
      · intro h; cases h; rfl
  | cons xs rest ih =>
      intro t
      simp only [listProd]
      constructor
      · intro h
        obtain ⟨x, hx, ht⟩ := List.mem_flatMap.mp h
        obtain ⟨t', ht', rfl⟩ := List.mem_map.mp ht
        exact List.Forall₂.cons hx ((ih t').mp ht')
      · intro h
        cases h with
        | cons ha hrest =>
            exact List.mem_flatMap.mpr ⟨_, ha, List.mem_map.mpr ⟨_, (ih _).mpr hrest, rfl⟩⟩

lemma sum_map_const {α : Type} (xs : List α) (c : Nat) :
    (xs.map (fun _ => c)).sum = xs.length * c := by
  induction xs with
  | nil => simp
  | cons x xs ih =>
      simp only [List.map_cons, List.sum_cons, List.length_cons, ih]
      ring

lemma listProd_length {α : Type} : ∀ ls : List (List α),
    (listProd ls).length = (ls.map List.length).prod := by
  intro ls
  induction ls with
  | nil => simp [listProd]
  | cons xs rest ih =>
      simp only [listProd, List.map_cons, List.prod_cons]
      induction xs with
      | nil => simp
      | cons x xs' ihx =>
          simp only [List.flatMap_cons, List.length_append, List.length_map,
            List.length_cons]
          rw [ihx, ih]
          ring

lemma listProd_nodup {α : Type} : ∀ ls : List (List α),
    (∀ l ∈ ls, l.Nodup) → (listProd ls).Nodup := by
  intro ls
  induction ls with
  | nil => intro _; simp [listProd]
  | cons xs rest ih =>
      intro h
      simp only [listProd]
      refine List.nodup_flatMap.mpr ⟨?_, ?_⟩
      · intro x _
        exact (ih (fun l hl => h l (List.mem_cons_of_mem _ hl))).map
          (fun t₁ t₂ ht => by injection ht)
      · have hxs : xs.Nodup := h xs (List.mem_cons_self _ _)
        refine hxs.imp ?_
        intro a b hab t hta htb
        obtain ⟨t₁, _, rfl⟩ := List.mem_map.mp hta
        obtain ⟨t₂, _, heq⟩ := List.mem_map.mp htb
        injection heq with h1 _
        exact absurd h1.symm hab

lemma forall₂_mem_left {t : List Nat} {ls : List (List Nat)}
    (h : List.Forall₂ (fun (a : Nat) (l : List Nat) => a ∈ l) t ls) :
    ∀ b ∈ t, ∃ l ∈ ls, b ∈ l := by
  induction h with
  | nil => intro b hb; cases hb
  | cons ha hrest ih =>
      intro b hb
      rcases List.mem_cons.mp hb with rfl | hb'
      · exact ⟨_, List.mem_cons_self _ _, ha⟩
      · obtain ⟨l, hl, hbl⟩ := ih b hb'
        exact ⟨l, List.mem_cons_of_mem _ hl, hbl⟩

/-! Helpers connecting `find_optimal_combination` to the loop facts. -/

lemma get_partition_data_fst (vars : List (List Nat)) (limit : Nat) :
    (get_partition_data vars limit).1 = vars.map (fun v => sizeToBatches v.length limit) :=
  rfl

lemma get_partition_data_snd (vars : List (List Nat)) (limit : Nat) :
    (get_partition_data vars limit).2 =
      vars.map (fun v => (sizeToBatches v.length limit).map Prod.fst) := by
  simp [get_partition_data]

/-- Every candidate batch count is positive when every domain is non-empty. -/
lemma candidate_entries_pos {vars : List (List Nat)} {limit : Nat}
    (hne : ∀ d ∈ vars, d ≠ []) :
    ∀ combo ∈ candidateCombos vars limit, 1 ≤ combo.prod := by
  intro combo hc
  apply List.one_le_prod_of_one_le
  intro b hb
  have hf := (mem_listProd _ combo).mp hc
  obtain ⟨l, hl, hbl⟩ := forall₂_mem_left hf b hb
  rw [get_partition_data_snd] at hl
  obtain ⟨v, hv, rfl⟩ := List.mem_map.mp hl
  obtain ⟨q, hq, rfl⟩ := List.mem_map.mp hbl
  have hm := sizeToBatches_mem q hq
  have hvpos : 0 < v.length := List.length_pos.mpr (hne v hv)
  rw [← hm.2.2.2]
  exact ceilDiv_pos hvpos (by omega)

/-- The full-domain assignment of the fast path yields exactly one tile. -/
lemma tileCount_full (vars : List (List Nat)) (hne : ∀ d ∈ vars, d ≠ []) :
    tileCount vars (vars.map List.length) = 1 := by
  unfold tileCount
  have hz := List.zip_map' (id : List Nat → List Nat) List.length vars
  simp only [List.map_id] at hz
  rw [hz, List.map_map]
  apply List.prod_eq_one
  intro x hx
  obtain ⟨v, hv, rfl⟩ := List.mem_map.mp hx
  exact ceilDiv_self (List.length_pos.mpr (hne v hv))

/-- Case analysis of a successful run of `find_optimal_combination`: the fast
path returns the full domain sizes; otherwise the plan is the size lookup of
the combination the search loop selected. -/
lemma find_optimal_combination_plan_cases {vars : List (List Nat)} {limit : Nat}
    {sizes : List Nat} (hlim : ¬ limit = 0)
    (hplan : find_optimal_combination vars limit = OptResult.plan sizes) :
    (ceilDiv (vars.map List.length).prod limit = 1 ∧ sizes = vars.map List.length) ∨
    (¬ ceilDiv (vars.map List.length).prod limit = 1 ∧
      ∃ c m, searchCombos (get_partition_data vars limit).1
          (ceilDiv (vars.map List.length).prod limit) limit
          (listProd (get_partition_data vars limit).2) none = some (c, m) ∧
        comboSizes? (get_partition_data vars limit).1 c = some sizes) := by
  simp only [find_optimal_combination] at hplan
  rw [if_neg hlim] at hplan
  by_cases hfast : ceilDiv (vars.map List.length).prod limit = 1
  · rw [if_pos hfast] at hplan
    injection hplan with h
    exact Or.inl ⟨hfast, h.symm⟩
  · rw [if_neg hfast] at hplan
    refine Or.inr ⟨hfast, ?_⟩
    rcases hs : searchCombos (get_partition_data vars limit).1
        (ceilDiv (vars.map List.length).prod limit) limit
        (listProd (get_partition_data vars limit).2) none with _ | ⟨c, m⟩
    · simp only [hs] at hplan
      cases hplan
    · rcases hcs : comboSizes? (get_partition_data vars limit).1 c with _ | sizes'
      · simp only [hs, hcs] at hplan
        cases hplan
      · simp only [hs, hcs] at hplan
        injection hplan with h
        exact ⟨c, m, rfl, by rw [hcs, h]⟩

/-- C1: whenever `find_optimal_combination` returns a plan on non-empty
domains with a positive row limit, the plan holds one batch size per
dimension, every size satisfies `1 ≤ size ≤ |domain|`, and the product of
all the sizes stays within the row limit — on the fast path as well as on
the search path. -/
theorem optimizer_plan_within_budget (vars : List (List Nat)) (limit : Nat)
    (sizes : List Nat)
    (hne : ∀ d ∈ vars, d ≠ []) (hlim : 1 ≤ limit)
    (hplan : find_optimal_combination vars limit = OptResult.plan sizes) :
    sizes.length = vars.length ∧
    (∀ p ∈ vars.zip sizes, 1 ≤ p.2 ∧ p.2 ≤ p.1.length) ∧
    sizes.prod ≤ limit := by
  rcases find_optimal_combination_plan_cases (by omega) hplan with
    ⟨hfast, hsz⟩ | ⟨hfast, c, m, hs, hcs⟩
  · subst hsz
    refine ⟨by simp, ?_, le_of_ceilDiv_eq_one (by omega) hfast⟩
    have hz := List.zip_map' (id : List Nat → List Nat) List.length vars
    simp only [List.map_id] at hz
    rw [hz]
    intro p hp
    obtain ⟨v, hv, rfl⟩ := List.mem_map.mp hp
    exact ⟨List.length_pos.mpr (hne v hv), le_rfl⟩
  · have hpost := searchCombos_sound (get_partition_data vars limit).1
      (ceilDiv (vars.map List.length).prod limit) limit
      (listProd (get_partition_data vars limit).2) none
      (by intro c' m' h'; cases h')
    obtain ⟨h1, h2, _, _, _, _⟩ := hpost.2 c m hs
    have hcs' := hcs
    rw [get_partition_data_fst] at hcs'
    refine ⟨comboSizes?_length vars c sizes hcs', ?_, ?_⟩
    · intro p hp
      have hb := comboSizes?_bounds vars c sizes hcs' p hp
      exact ⟨hb.1, hb.2.1⟩
    · obtain ⟨_, sizes'', hcs'', hsp''⟩ := feasCombo_lookup h2
      rw [hcs] at hcs''
      injection hcs'' with he
      rw [he]
      exact hsp''

/-- Witness for C1 at the concrete dimensions 5 × 5 with limit 9. -/
theorem optimizer_plan_within_budget_witness :
    ([1, 5] : List Nat).length = ([[0, 1, 2, 3, 4], [5, 6, 7, 8, 9]] : List (List Nat)).length ∧
    (∀ p ∈ ([[0, 1, 2, 3, 4], [5, 6, 7, 8, 9]] : List (List Nat)).zip ([1, 5] : List Nat),
      1 ≤ p.2 ∧ p.2 ≤ p.1.length) ∧
    ([1, 5] : List Nat).prod ≤ 9 :=
  optimizer_plan_within_budget [[0, 1, 2, 3, 4], [5, 6, 7, 8, 9]] 9 [1, 5]
    (by decide) (by decide) (by decide)

/-- C2 counterexample: with two five-value dimensions and limit 9 the code
returns sizes `[1, 5]` with `5 · 1 = 5` tiles, yet the assignment `[3, 3]`
respects the budget (`3 · 3 = 9 ≤ 9`) and needs only `2 · 2 = 4` tiles, so the
returned tile count is not minimal among all budget-respecting assignments. -/
theorem optimizer_not_globally_minimal :
    find_optimal_combination [[0, 1, 2, 3, 4], [5, 6, 7, 8, 9]] 9 = OptResult.plan [1, 5] ∧
    validAssignB [[0, 1, 2, 3, 4], [5, 6, 7, 8, 9]] 9 [3, 3] = true ∧
    tileCount [[0, 1, 2, 3, 4], [5, 6, 7, 8, 9]] [3, 3] = 4 ∧
    tileCount [[0, 1, 2, 3, 4], [5, 6, 7, 8, 9]] [1, 5] = 5 := by decide

/-- C2 as amended: the returned plan's tile count `Π ceil(|domain_i|/size_i)`
is minimal among the combinations the search actually considers — per
dimension only the largest batch size (capped at the limit) achieving each
distinct batch count is a candidate, and a combination counts as feasible
only when the product of those stored largest sizes is within the limit —
and, on the search path, the winning combination is the first one in
iteration order attaining that minimum. -/
theorem optimizer_min_over_candidates (vars : List (List Nat)) (limit : Nat)
    (sizes : List Nat)
    (hne : ∀ d ∈ vars, d ≠ []) (hlim : 1 ≤ limit)
    (hplan : find_optimal_combination vars limit = OptResult.plan sizes) :
    (∀ combo ∈ candidateCombos vars limit,
        codeFeasible vars limit combo = true → tileCount vars sizes ≤ combo.prod) ∧
    ((ceilDiv (vars.map List.length).prod limit = 1 ∧ tileCount vars sizes = 1) ∨
      ∃ combo l₁ l₂,
        candidateCombos vars limit = l₁ ++ combo :: l₂ ∧
        comboSizes? (get_partition_data vars limit).1 combo = some sizes ∧
        combo.prod = tileCount vars sizes ∧
        codeFeasible vars limit combo = true ∧
        (∀ c ∈ l₁, codeFeasible vars limit c = true → combo.prod < c.prod)) := by
  rcases find_optimal_combination_plan_cases (by omega) hplan with
    ⟨hfast, hsz⟩ | ⟨hfast, c, m, hs, hcs⟩
  · subst hsz
    have ht1 := tileCount_full vars hne
    constructor
    · intro combo hc _
      rw [ht1]
      exact candidate_entries_pos hne combo hc
    · exact Or.inl ⟨hfast, ht1⟩
  · have hpost := searchCombos_sound (get_partition_data vars limit).1
      (ceilDiv (vars.map List.length).prod limit) limit
      (listProd (get_partition_data vars limit).2) none
      (by intro c' m' h'; cases h')
    obtain ⟨h1, h2, h3, h4, h5, h6⟩ := hpost.2 c m hs
    have htc : tileCount vars sizes = c.prod := by
      have hcs' := hcs
      rw [get_partition_data_fst] at hcs'
      exact comboSizes?_tileCount vars c sizes hcs'
    constructor
    · intro combo hc hf
      have hm := h4 combo hc hf
      rw [htc]
      omega
    · rcases h6 with h6 | ⟨l₁, l₂, hl, hl₁, _⟩
      · cases h6
      · refine Or.inr ⟨c, l₁, l₂, hl, hcs, htc.symm, h2, ?_⟩
        intro c' hc' hf'
        have := hl₁ c' hc' hf'
        omega

/-- Witness for the amended C2 at dimensions 2 × 2 with limit 10 (the fast
path: one tile suffices). -/
theorem optimizer_min_over_candidates_witness :
    (∀ combo ∈ candidateCombos [[0, 1], [2, 3]] 10,
        codeFeasible [[0, 1], [2, 3]] 10 combo = true →
        tileCount [[0, 1], [2, 3]] [2, 2] ≤ combo.prod) ∧
    ((ceilDiv (([[0, 1], [2, 3]] : List (List Nat)).map List.length).prod 10 = 1 ∧
        tileCount [[0, 1], [2, 3]] [2, 2] = 1) ∨
      ∃ combo l₁ l₂,
        candidateCombos [[0, 1], [2, 3]] 10 = l₁ ++ combo :: l₂ ∧
        comboSizes? (get_partition_data [[0, 1], [2, 3]] 10).1 combo = some [2, 2] ∧
        combo.prod = tileCount [[0, 1], [2, 3]] [2, 2] ∧
        codeFeasible [[0, 1], [2, 3]] 10 combo = true ∧
        (∀ c ∈ l₁, codeFeasible [[0, 1], [2, 3]] 10 c = true → combo.prod < c.prod)) :=
  optimizer_min_over_candidates [[0, 1], [2, 3]] 10 [2, 2]
    (by decide) (by decide) (by decide)

/-- C3: the optimizer never reports infeasibility as a configuration error.
On inputs admitting no budget-respecting assignment it crashes instead: a
dimension with an empty domain leaves `best_combination = None` and the final
`zip(variables.keys(), None)` raises `TypeError`, and a zero row limit makes
`math.ceil(total_rows / limit)` raise `ZeroDivisionError`.  (It does at least
never return an invalid plan.) -/
theorem optimizer_infeasible_crashes :
    find_optimal_combination [[]] 10 = OptResult.noneTypeError ∧
    find_optimal_combination [[0, 1]] 0 = OptResult.zeroDivisionError ∧
    (∀ sizes, validAssignB [[]] 10 sizes = false) ∧
    (∀ sizes, validAssignB [[0, 1]] 0 sizes = false) := by
  refine ⟨by decide, by decide, ?_, ?_⟩
  · intro sizes
    cases sizes with
    | nil => decide
    | cons s rest =>
        cases rest with
        | nil =>
            simp [validAssignB]
            omega
        | cons s' rest' => simp [validAssignB]
  · intro sizes
    cases sizes with
    | nil => decide
    | cons s rest =>
        cases rest with
        | nil =>
            simp [validAssignB]
            omega
        | cons s' rest' => simp [validAssignB]

/-! Facts about `split_into_batches` and the tile enumeration. -/

lemma ceilDiv_zero_left {s : Nat} : ceilDiv 0 s = 0 := by
  unfold ceilDiv
  cases s with
  | zero => simp
  | succ s' =>
      apply Nat.div_eq_of_lt
      omega

lemma split_into_batches_nil {s : Nat} : split_into_batches [] s = [] := by
  simp [split_into_batches, ceilDiv_zero_left]

lemma ceilDiv_succ {n s : Nat} (hn : 0 < n) (hs : 0 < s) :
    ceilDiv n s = ceilDiv (n - s) s + 1 := by
  by_cases h : n ≤ s
  · rw [ceilDiv_eq_one hn h]
    have h0 : n - s = 0 := by omega
    rw [h0, ceilDiv_zero_left]
  · unfold ceilDiv
    have h1 : n + s - 1 = (n - s + s - 1) + s := by omega
    rw [h1, Nat.add_div_right _ hs]

lemma split_into_batches_cons {v : List Nat} {s : Nat} (hv : v ≠ []) (hs : 0 < s) :
    split_into_batches v s = v.take s :: split_into_batches (v.drop s) s := by
  unfold split_into_batches
  have hlen : 0 < v.length := List.length_pos.mpr hv
  rw [ceilDiv_succ hlen hs, List.range_succ_eq_map]
  simp only [List.map_cons, List.map_map]
  congr 1
  · simp
  · rw [List.length_drop]
    apply List.map_congr_left
    intro i _
    simp only [Function.comp]
    rw [List.drop_drop]
    congr 2
    rw [Nat.succ_eq_add_one]
    ring

lemma split_into_batches_flatten {s : Nat} (hs : 0 < s) :
    ∀ (n : Nat) (v : List Nat), v.length ≤ n →
      (split_into_batches v s).flatten = v := by
  intro n
  induction n with
  | zero =>
      intro v hv
      have hnil : v = [] := by
        cases v with
        | nil => rfl
        | cons a l => simp at hv
      subst hnil
      simp [split_into_batches_nil]
  | succ n ih =>
      intro v hv
      by_cases hemp : v = []
      · subst hemp
        simp [split_into_batches_nil]
      · rw [split_into_batches_cons hemp hs, List.flatten_cons]
        rw [ih (v.drop s) (by
          rw [List.length_drop]
          have := List.length_pos.mpr hemp
          omega)]
        exact List.take_append_drop s v

lemma split_into_batches_mem {v : List Nat} {s : Nat} (hs : 0 < s) :
    ∀ c ∈ split_into_batches v s, c ≠ [] ∧ c.length ≤ s := by
  intro c hc
  unfold split_into_batches at hc
  obtain ⟨i, hi, rfl⟩ := List.mem_map.mp hc
  have hi' : i < ceilDiv v.length s := List.mem_range.mp hi
  have hlt := ceilDiv_mul_lt hs hi'
  constructor
  · have hlen : ((v.drop (i * s)).take s).length = min s (v.length - i * s) := by
      simp [List.length_take, List.length_drop]
    intro hnil
    rw [hnil] at hlen
    simp at hlen
    omega
  · rw [List.length_take]
    exact min_le_left _ _

lemma split_into_batches_exact {v : List Nat} {s i : Nat} (hs : 0 < s)
    (hi : i + 1 < (split_into_batches v s).length) :
    ((split_into_batches v s).getD i []).length = s := by
  unfold split_into_batches at hi ⊢
  rw [List.length_map, List.length_range] at hi
  have hle := ceilDiv_mul_add_le hs hi
  have h1 : ((List.range (ceilDiv v.length s)).map
      (fun i => (v.drop (i * s)).take s)).getD i [] = (v.drop (i * s)).take s := by
    rw [List.getD_eq_getElem?_getD, List.getElem?_map, List.getElem?_range (by omega)]
    rfl
  rw [h1, List.length_take, List.length_drop]
  omega

lemma nodup_of_flatten_nodup {l : List (List Nat)} (hj : l.flatten.Nodup)
    (hne : ∀ c ∈ l, c ≠ []) : l.Nodup := by
  induction l with
  | nil => simp
  | cons c rest ih =>
      rw [List.flatten_cons, List.nodup_append] at hj
      obtain ⟨hc, hrest, hdisj⟩ := hj
      rw [List.nodup_cons]
      refine ⟨?_, ih hrest (fun c' hc' => hne c' (List.mem_cons_of_mem _ hc'))⟩
      intro hmem
      obtain ⟨x, hx⟩ := List.exists_mem_of_ne_nil c (hne c (List.mem_cons_self _ _))
      exact hdisj hx (List.mem_flatten.mpr ⟨c, hmem, hx⟩)

/-- C4: `generate_all_combinations` enumerates exactly
`Π ceil(|domain_i| / size_i)` tiles in the deterministic dimension-order ×
slice-order; per dimension the slices are consecutive non-empty sub-lists of
length at most the batch size whose concatenation restores the full ordered
domain (all but the final slice have length exactly the batch size); a tile
is produced iff it picks one slice per dimension, and for duplicate-free
domains no tile is produced twice. -/
theorem tile_enumeration_partition (vars : List (List Nat)) (sizes : List Nat)
    (hlen : sizes.length = vars.length)
    (hb : ∀ p ∈ vars.zip sizes, 1 ≤ p.2 ∧ p.2 ≤ p.1.length) :
    (generate_all_combinations vars sizes).length = tileCount vars sizes ∧
    (∀ p ∈ vars.zip sizes,
        (split_into_batches p.1 p.2).flatten = p.1 ∧
        (∀ c ∈ split_into_batches p.1 p.2, c ≠ [] ∧ c.length ≤ p.2) ∧
        (∀ i, i + 1 < (split_into_batches p.1 p.2).length →
            ((split_into_batches p.1 p.2).getD i []).length = p.2)) ∧
    (∀ tile, tile ∈ generate_all_combinations vars sizes ↔
        List.Forall₂ (fun slice p => slice ∈ split_into_batches p.1 p.2)
          tile (vars.zip sizes)) ∧
    ((∀ d ∈ vars, d.Nodup) → (generate_all_combinations vars sizes).Nodup) := by
  refine ⟨?_, ?_, ?_, ?_⟩
  · unfold generate_all_combinations tileCount
    rw [listProd_length, List.map_map]
    congr 1
    apply List.map_congr_left
    intro p _
    simp [Function.comp, split_into_batches]
  · intro p hp
    have hbp := hb p hp
    refine ⟨split_into_batches_flatten (by omega) p.1.length p.1 le_rfl, ?_, ?_⟩
    · exact split_into_batches_mem (by omega)
    · intro i hi
      exact split_into_batches_exact (by omega) hi
  · intro tile
    unfold generate_all_combinations
    rw [mem_listProd]
    exact List.forall₂_map_right_iff
  · intro hnd
    unfold generate_all_combinations
    apply listProd_nodup
    intro l hl
    obtain ⟨p, hp, rfl⟩ := List.mem_map.mp hl
    obtain ⟨d, sz⟩ := p
    have hbp := hb (d, sz) hp
    have hsz : 0 < sz := hbp.1
    have hmem := List.of_mem_zip hp
    apply nodup_of_flatten_nodup
    · rw [split_into_batches_flatten hsz d.length d le_rfl]
      exact hnd d hmem.1
    · intro c hc
      exact (split_into_batches_mem hsz c hc).1

/-! The response validator (C6) and the request queue (C5, C7, C8, C9, C10). -/

/-- C6 counterexample: a body whose first two lines each contain exactly one
separator satisfies the claimed rule — same non-zero separator count — yet
`is_valid_csv` rejects it, because the code demands strictly more than one
separator in the first line. -/
theorem csv_single_separator_rejected :
    spec_valid_csv "a;b\nc;d".toList = true ∧
    is_valid_csv "a;b\nc;d".toList = false := by decide

/-- C6 as amended: `is_valid_csv` accepts a body iff it has at least two
lines and the first two lines carry the same count of the separator `;`,
that count being at least two (not merely non-zero). -/
theorem csv_validity_rule (text : List Char) :
    is_valid_csv text = true ↔
      (2 ≤ (splitLines text).length ∧
        1 < ((splitLines text).getD 0 []).count ';' ∧
        ((splitLines text).getD 0 []).count ';' =
          ((splitLines text).getD 1 []).count ';') := by
  simp only [is_valid_csv]
  by_cases hemp : text = []
  · subst hemp
    simp [splitLines]
  · rw [if_neg hemp]
    by_cases hlen : (splitLines text).length < 2
    · rw [if_pos hlen]
      constructor
      · intro h
        exact absurd h (by decide)
      · rintro ⟨h1, _, _⟩
        omega
    · rw [if_neg hlen]
      rw [Bool.and_eq_true, decide_eq_true_eq, decide_eq_true_eq]
      constructor
      · rintro ⟨h1, h2⟩
        exact ⟨by omega, h1, h2⟩
      · rintro ⟨_, h1, h2⟩
        exact ⟨h1, h2⟩

/-- C5: the resume scenario.  `get_pending_requests` does return exactly the
four still-Pending payloads of the ten-request queue (it reads without
writing, so the six Done rows are untouched), but `execute_and_save_requests`
raises `AttributeError` on its first statement — the `requests` parameter
shadows the `requests` module — so none of the four pending requests is ever
executed. -/
theorem resume_fetches_pending_but_execution_crashes :
    get_pending_requests resumeDB (some 1) = ["p7", "p8", "p9", "p10"] ∧
    (resumeDB.requests.filter (fun r => decide (r.status = Status.done))).length = 6 ∧
    execute_and_save_requests (get_pending_requests resumeDB (some 1)) 1 =
      ExecOutcome.attributeError := by decide

/-- C7 counterexample: with a failure already recorded for request 1, a
second malformed response for the same request inserts nothing — the
`INSERT INTO FailedRequests` trips the table's primary key, the caught
`IntegrityError` is only logged and the store is left unchanged — while the
claim demands a FailedRequests record for every malformed response. -/
theorem repeated_failure_not_recorded :
    is_valid_csv "bad".toList = false ∧
    save_response failedOnceDB 1 "bad".toList = failedOnceDB ∧
    (save_response failedOnceDB 1 "bad".toList).failed.length = 1 := by decide

/-- C7 as amended: on a malformed response the persister inserts a
FailedRequests record with the fixed tag `Invalid CSV response` provided no
failure is recorded yet for that request id (a repeat failure violates the
table's primary key and changes nothing); on this path the Requests table —
and with it the owning request's Pending status — is never touched. -/
theorem malformed_response_keeps_request_pending (db : DB) (rid : Nat)
    (text : List Char) (hmal : is_valid_csv text = false) :
    (db.failed.any (fun f => f.request_id == rid) = false →
        (save_response db rid text).failed =
          db.failed ++ [{ request_id := rid, info := "Invalid CSV response" }]) ∧
    (db.failed.any (fun f => f.request_id == rid) = true →
        save_response db rid text = db) ∧
    (save_response db rid text).requests = db.requests ∧
    statusOf (save_response db rid text) rid = statusOf db rid := by
  unfold save_response
  rw [if_pos hmal]
  cases hany : db.failed.any (fun f => f.request_id == rid) with
  | false => exact ⟨fun _ => rfl, fun h => absurd h (by decide), rfl, rfl⟩
  | true => exact ⟨fun h => absurd h (by decide), fun _ => rfl, rfl, rfl⟩

/-- Witness for the amended C7 on a queue with one Pending request and no
recorded failure. -/
theorem malformed_response_keeps_request_pending_witness :
    (onePendingDB.failed.any (fun f => f.request_id == 1) = false →
        (save_response onePendingDB 1 "bad".toList).failed =
          onePendingDB.failed ++ [{ request_id := 1, info := "Invalid CSV response" }]) ∧
    (onePendingDB.failed.any (fun f => f.request_id == 1) = true →
        save_response onePendingDB 1 "bad".toList = onePendingDB) ∧
    (save_response onePendingDB 1 "bad".toList).requests = onePendingDB.requests ∧
    statusOf (save_response onePendingDB 1 "bad".toList) 1 = statusOf onePendingDB 1 :=
  malformed_response_keeps_request_pending onePendingDB 1 "bad".toList (by decide)

/-- C8: committing a Valid response twice for the same request accumulates
two Response rows.  `REPLACE INTO Responses(request_id, response_text)` never
replaces anything: `response_id` is a fresh autoincrement value and
`request_id` carries no UNIQUE constraint, so the upsert degenerates to a
plain INSERT (the request's status is still set to Done). -/
theorem repeated_commit_accumulates_responses :
    ((save_response (save_response onePendingDB 1 "a;b;c\nd;e;f".toList) 1
        "a;b;c\nd;e;f".toList).responses.filter
        (fun r => r.request_id == 1)).length = 2 ∧
    statusOf (save_response (save_response onePendingDB 1 "a;b;c\nd;e;f".toList) 1
        "a;b;c\nd;e;f".toList) 1 = some Status.done := by decide

/-! Supporting lemmas for the status-lifecycle invariant (C9). -/

lemma bulk_insert_requests_requests :
    ∀ (payloads : List String) (db : DB) (topic_id : Nat),
      ∃ newRows, (bulk_insert_requests db payloads topic_id).requests =
          db.requests ++ newRows ∧
        ∀ r ∈ newRows, r.status = Status.pending := by
  intro payloads
  induction payloads with
  | nil =>
      intro db topic_id
      exact ⟨[], by simp [bulk_insert_requests], by simp⟩
  | cons p rest ih =>
      intro db topic_id
      obtain ⟨rows, hrows, hst⟩ := ih
        ({ db with
            requests := db.requests ++
              [⟨db.nextRequestId, topic_id, p, Status.pending⟩],
            nextRequestId := db.nextRequestId + 1 }) topic_id
      refine ⟨(⟨db.nextRequestId, topic_id, p, Status.pending⟩ : RequestRow) :: rows, ?_, ?_⟩
      · unfold bulk_insert_requests at hrows ⊢
        simp only [List.foldl_cons]
        rw [hrows]
        simp
      · intro r hr
        rcases List.mem_cons.mp hr with rfl | hr'
        · rfl
        · exact hst r hr'

lemma find?_append_of_some {α : Type} {p : α → Bool} {l₁ l₂ : List α} {a : α}
    (h : l₁.find? p = some a) : (l₁ ++ l₂).find? p = some a := by
  induction l₁ with
  | nil => cases h
  | cons x rest ih =>
      cases hc : p x with
      | false =>
          rw [List.find?_cons_of_neg _ (by simp [hc])] at h
          rw [List.cons_append, List.find?_cons_of_neg _ (by simp [hc])]
          exact ih h
      | true =>
          rw [List.find?_cons_of_pos _ hc] at h
          rw [List.cons_append, List.find?_cons_of_pos _ hc]
          exact h

lemma find?_map_id_preserving {l : List RequestRow} {rid : Nat}
    (g : RequestRow → RequestRow)
    (hid : ∀ r, (g r).request_id = r.request_id) :
    (l.map g).find? (fun r => r.request_id == rid) =
      (l.find? (fun r => r.request_id == rid)).map g := by
  induction l with
  | nil => rfl
  | cons r rest ih =>
      simp only [List.map_cons, List.find?]
      rw [hid r]
      cases hc : (r.request_id == rid) with
      | false => simp [ih]
      | true => simp

/-- C9: in every database state reachable through the workflow's operations,
no request carries the Error status, and each single operation (bulk insert,
response persistence; the pending fetch does not write) moves any request's
status either not at all or from Pending to Done. -/
theorem request_status_monotone (db : DB) (hreach : Reachable db) :
    (∀ r ∈ db.requests, r.status ≠ Status.error) ∧
    (∀ payloads topic_id,
        StatusStepOK db (bulk_insert_requests db payloads topic_id)) ∧
    (∀ rid text, StatusStepOK db (save_response db rid text)) := by
  have hinv : ∀ db', Reachable db' → ∀ r ∈ db'.requests, r.status ≠ Status.error := by
    intro db' h
    induction h with
    | init => intro r hr; cases hr
    | insert db'' payloads topic_id _ ihdb =>
        intro r hr
        obtain ⟨rows, hrows, hst⟩ := bulk_insert_requests_requests payloads db'' topic_id
        rw [hrows] at hr
        rcases List.mem_append.mp hr with hr' | hr'
        · exact ihdb r hr'
        · rw [hst r hr']
          decide
    | save db'' rid text _ ihdb =>
        intro r hr
        unfold save_response at hr
        by_cases hv : is_valid_csv text = false
        · rw [if_pos hv] at hr
          cases hany : db''.failed.any (fun f => f.request_id == rid) with
          | false =>
              rw [hany] at hr
              simp only [Bool.false_eq_true, if_false] at hr
              exact ihdb r hr
          | true =>
              rw [hany] at hr
              simp only [if_true] at hr
              exact ihdb r hr
        · rw [if_neg hv] at hr
          obtain ⟨r₀, hr₀, rfl⟩ := List.mem_map.mp hr
          by_cases hid : r₀.request_id = rid
          · simp only [if_pos hid]
            decide
          · simp only [if_neg hid]
            exact ihdb r₀ hr₀
  refine ⟨hinv db hreach, ?_, ?_⟩
  · intro payloads topic_id rid s s' hs hs'
    obtain ⟨rows, hrows, _⟩ := bulk_insert_requests_requests payloads db topic_id
    unfold statusOf at hs hs'
    rw [hrows] at hs'
    rcases hf : db.requests.find? (fun r => r.request_id == rid) with _ | r
    · rw [hf] at hs
      cases hs
    · have h1 : r.status = s := by
        rw [hf] at hs
        simpa using hs
      have h2 : r.status = s' := by
        rw [find?_append_of_some hf] at hs'
        simpa using hs'
      left
      rw [← h1, ← h2]
  · intro rid text rid' s s' hs hs'
    unfold save_response at hs'
    by_cases hv : is_valid_csv text = false
    · rw [if_pos hv] at hs'
      cases hany : db.failed.any (fun f => f.request_id == rid) with
      | false =>
          rw [hany] at hs'
          have heq : statusOf (if (false : Bool) = true then db else
              { db with failed := db.failed ++
                [{ request_id := rid, info := "Invalid CSV response" }] }) rid'
              = statusOf db rid' := rfl
          rw [heq, hs] at hs'
          left
          exact (Option.some_inj.mp hs').symm
      | true =>
          rw [hany] at hs'
          have heq : statusOf (if (true : Bool) = true then db else
              { db with failed := db.failed ++
                [{ request_id := rid, info := "Invalid CSV response" }] }) rid'
              = statusOf db rid' := rfl
          rw [heq, hs] at hs'
          left
          exact (Option.some_inj.mp hs').symm
    · rw [if_neg hv] at hs'
      unfold statusOf at hs hs'
      rw [find?_map_id_preserving
        (fun r => if r.request_id = rid then { r with status := Status.done } else r)
        (by
          intro r
          by_cases h : r.request_id = rid
          · simp [h]
          · simp [h])] at hs'
      rcases hf : db.requests.find? (fun r => r.request_id == rid') with _ | r
      · rw [hf] at hs
        cases hs
      · rw [hf] at hs hs'
        have hss : r.status = s := Option.some_inj.mp hs
        have hmem := List.mem_of_find?_eq_some hf
        have herr := hinv db hreach r hmem
        by_cases hid : r.request_id = rid
        · have hs'' : Status.done = s' := by
          -- the matched row is rewritten to status Done
            simp only [Option.map_some', if_pos hid] at hs'
            exact Option.some_inj.mp hs'
          cases hstat : r.status with
          | pending => right; exact ⟨by rw [← hss, hstat], by rw [← hs'']⟩
          | done => left; rw [← hs'', ← hss, hstat]
          | error => exact absurd hstat herr
        · simp only [Option.map_some', if_neg hid] at hs'
          left
          rw [← Option.some_inj.mp hs', hss]

/-- Witness for C9 at the state reached by initialising the store and bulk
inserting two requests for topic 1. -/
theorem request_status_monotone_witness :
    (∀ r ∈ (bulk_insert_requests init_db ["p1", "p2"] 1).requests,
        r.status ≠ Status.error) ∧
    (∀ payloads topic_id,
        StatusStepOK (bulk_insert_requests init_db ["p1", "p2"] 1)
          (bulk_insert_requests (bulk_insert_requests init_db ["p1", "p2"] 1)
            payloads topic_id)) ∧
    (∀ rid text, StatusStepOK (bulk_insert_requests init_db ["p1", "p2"] 1)
        (save_response (bulk_insert_requests init_db ["p1", "p2"] 1) rid text)) :=
  request_status_monotone _ (Reachable.insert _ _ _ Reachable.init)

/-- C10: a falsy `topic_id` (`None` or `0`) makes `if topic_id:` skip the
topic filter entirely, so every topic's Pending payloads come back — not
topic 0's alone — while any non-zero topic id restricts the result to that
topic's Pending rows. -/
theorem falsy_topic_id_ignores_filter (db : DB) :
    get_pending_requests db (some 0) = get_pending_requests db none ∧
    get_pending_requests db none =
      (db.requests.filter (fun r => decide (r.status = Status.pending))).map
        RequestRow.payload ∧
    (∀ t : Nat, get_pending_requests db (some (t + 1)) =
      (db.requests.filter
        (fun r => decide (some r.topic_id = some (t + 1) ∧ r.status = Status.pending))).map
        RequestRow.payload) := by
  refine ⟨rfl, rfl, ?_⟩
  intro t
  rfl

/-- Witness for C4 at domains `[0,1,2]`, `[3,4]` with batch sizes 2 and 1. -/
theorem tile_enumeration_partition_witness :
    (generate_all_combinations [[0, 1, 2], [3, 4]] [2, 1]).length =
        tileCount [[0, 1, 2], [3, 4]] [2, 1] ∧
    (∀ p ∈ ([[0, 1, 2], [3, 4]] : List (List Nat)).zip ([2, 1] : List Nat),
        (split_into_batches p.1 p.2).flatten = p.1 ∧
        (∀ c ∈ split_into_batches p.1 p.2, c ≠ [] ∧ c.length ≤ p.2) ∧
        (∀ i, i + 1 < (split_into_batches p.1 p.2).length →
            ((split_into_batches p.1 p.2).getD i []).length = p.2)) ∧
    (∀ tile, tile ∈ generate_all_combinations [[0, 1, 2], [3, 4]] [2, 1] ↔
        List.Forall₂ (fun slice p => slice ∈ split_into_batches p.1 p.2)
          tile (([[0, 1, 2], [3, 4]] : List (List Nat)).zip ([2, 1] : List Nat))) ∧
    ((∀ d ∈ ([[0, 1, 2], [3, 4]] : List (List Nat)), d.Nodup) →
        (generate_all_combinations [[0, 1, 2], [3, 4]] [2, 1]).Nodup) :=
  tile_enumeration_partition [[0, 1, 2], [3, 4]] [2, 1] (by decide) (by decide)

example : find_optimal_combination [[0, 1, 2, 3, 4], [5, 6, 7, 8, 9]] 9 =
    OptResult.plan [1, 5] := by decide

example : find_optimal_combination [[0, 1, 2, 3, 4], [0, 1, 2]] 4 =
    OptResult.plan [1, 3] := by decide

example : find_optimal_combination [[0, 1], [2, 3]] 10 = OptResult.plan [2, 2] := by decide

example : find_optimal_combination [[]] 10 = OptResult.noneTypeError := by decide

example : validAssignB [[0, 1, 2, 3, 4], [5, 6, 7, 8, 9]] 9 [3, 3] = true := by decide

example : tileCount [[0, 1, 2, 3, 4], [5, 6, 7, 8, 9]] [3, 3] = 4 := by decide

example : split_into_batches [0, 1, 2, 3, 4] 2 = [[0, 1], [2, 3], [4]] := by decide

example : generate_all_combinations [[0, 1, 2], [3, 4]] [2, 1] =
    [[[0, 1], [3]], [[0, 1], [4]], [[2], [3]], [[2], [4]]] := by decide
